import Mathlib

/-!
Verification of `film_review_explorer/dataframe_preprocessor.py`.

A shallow embedding of the pure row-level operations of the module:
numeric cells are a small sum type (`PyNum`) distinguishing `None`,
`NaN` and ordinary numbers (modelled as rationals), strings are Lean
strings, dataframes are lists of rows, and fallible Python code
(exceptions) is modelled with `Except String`.
-/

/-- A numeric cell of a dataframe: Python `None`, a float `NaN`, or an
ordinary real number, modelled as a rational. -/
inductive PyNum where
  | none : PyNum
  | nan : PyNum
  | num : ℚ → PyNum
deriving DecidableEq

/-- A dataframe row with the fields the preprocessor reads. -/
structure Row where
  review : String
  website : String
  rating_ratio : PyNum
  like_ratio : PyNum
deriving DecidableEq

/-- Python `math.isnan`: `True` on `NaN`, `False` on a number, and a
`TypeError` on `None`. -/
def isnan : PyNum → Except String Bool
  | PyNum.none => Except.error "TypeError: must be real number, not NoneType"
  | PyNum.nan => Except.ok true
  | PyNum.num _ => Except.ok false

/-- The whitespace class of the regexes (`\s`): space, tab, newline,
carriage return, vertical tab, form feed, plus the no-break and
ideographic spaces. -/
def isSpaceChar (c : Char) : Bool :=
  c == ' ' || c == '\t' || c == '\n' || c == '\r' || c == '\x0b' ||
    c == '\x0c' || c == ' ' || c == '　'

/-- The character class of the punctuation-collapsing regex of
`clean_en_noise`. Inside the class the sequence `@[\]^` is the three
characters at-sign, left bracket, right bracket (escaped), caret: the
backslash only escapes the bracket and is not itself a member. -/
def enPunct : List Char :=
  ['!', '?', '#', '$', '%', '&', '\x27', '(', ')', '*', '+', ',', '-',
   '.', '/', ':', ';', '<', '=', '>', '@', '[', ']', '^', '_',
   '\x60', '\x7b', '|', '\x7d', '~', '\x22']

/-- The character class of the punctuation-collapsing regex of
`clean_cn_noise`. -/
def cnPunct : List Char :=
  ['。', '，', '！', '？', '#', '＄', '¥', '％', '＆', '＊', '＋', '－',
   '／', '：', '；', '（', '）', '＜', '＝', '＞', '＠', '［', '＼',
   '］', '＾', '＿', '｀', '｛', '｜', '｝', '～', '｟',
   '｠', '｢', '｣', '､', '、', '〃', '》', '「', '」', '『', '』',
   '【', '】', '〔', '〕', '〖', '〗', '〘', '〙', '〚', '〛', '〜',
   '〝', '〞', '〟', '–', '—', '‘', '’', '‛', '“',
   '”', '„', '‟', '…', '‧', '﹏', '.']

/-- `re.sub(r"([P])\1+", r"\1", text)`: every maximal run of an
identical character drawn from the class `p` collapses to a single
occurrence; all other characters pass through. -/
def collapseRuns (p : Char → Bool) : List Char → List Char
  | [] => []
  | c :: rest =>
    if p c && ((collapseRuns p rest).head? == some c) then collapseRuns p rest
    else c :: collapseRuns p rest

/-- `re.sub(r"\s+", " ", text)`: every maximal run of whitespace
characters is replaced by a single ASCII space. -/
def subWsSpace : List Char → List Char
  | [] => []
  | c :: rest =>
    if isSpaceChar c then
      (if (subWsSpace rest).head? == some ' ' then subWsSpace rest
       else ' ' :: subWsSpace rest)
    else c :: subWsSpace rest

/-- The list-level body of `clean_cn_noise`: drop newlines
(`text.replace("\n", "")`), drop all whitespace (`re.sub(r"\s+", "")`),
then collapse runs of identical CN punctuation. -/
def cleanCnList (l : List Char) : List Char :=
  collapseRuns (fun c => cnPunct.contains c)
    ((l.filter (fun c => !(c == '\n'))).filter (fun c => !(isSpaceChar c)))

/-- The list-level body of `clean_en_noise`: turn newlines into spaces
(`text.replace("\n", " ")`), squeeze whitespace runs to one space
(`re.sub(r"\s+", " ")`), then collapse runs of identical EN
punctuation. -/
def cleanEnList (l : List Char) : List Char :=
  collapseRuns (fun c => enPunct.contains c)
    (subWsSpace (l.map (fun c => if c == '\n' then ' ' else c)))

/-- `clean_cn_noise` from the source. -/
def clean_cn_noise (text : String) : String := String.mk (cleanCnList text.data)

/-- `clean_en_noise` from the source. -/
def clean_en_noise (text : String) : String := String.mk (cleanEnList text.data)

/-- The ASCII fragment of the `\w` word-character class: on ASCII text
the Unicode-aware `\w` of the regex engine matches exactly the
alphanumerics and the underscore. -/
def isWordCharAscii (c : Char) : Bool := c.isAlphanum || c == '_'

/-- The number of maximal runs of the class `p`, counted at the
position where each run ends. -/
def countRunEnds (p : Char → Bool) : List Char → Nat
  | [] => 0
  | [c] => if p c then 1 else 0
  | c :: d :: rest =>
    (if p c && !(p d) then 1 else 0) + countRunEnds p (d :: rest)

/-- `len(re.findall(r"\b\w+\b", s))`: the number of maximal runs of
word characters. The word-character class `w` is a parameter because
the Unicode table behind `\w` lives in the regex engine, not in the
source; its restriction to ASCII is `isWordCharAscii`. -/
def countWordTokens (w : Char → Bool) (l : List Char) : Nat := countRunEnds w l

/-- Helper for `countRunStarts`: counts, walking the list with the
previous character at hand, the positions where a new run of the class
`p` begins. -/
def countRunStartsFrom (p : Char → Bool) : Char → List Char → Nat
  | _, [] => 0
  | prev, c :: rest =>
    (if p c && !(p prev) then 1 else 0) + countRunStartsFrom p c rest

/-- The number of maximal runs of the class `p`, counted at the
position where each run begins. -/
def countRunStarts (p : Char → Bool) : List Char → Nat
  | [] => 0
  | c :: rest => (if p c then 1 else 0) + countRunStartsFrom p c rest

/-- `calculate_review_length` from the source: character count for CN
sites, word-token count otherwise. The word-character class `w` of the
regex engine is passed through to `countWordTokens`. -/
def calculate_review_length (w : Char → Bool) (row : Row)
    (cn_websites : List String) : Nat :=
  if cn_websites.contains row.website then row.review.length
  else countWordTokens w row.review.data

/-- `calculate_rating_level` from the source: `math.isnan` runs first
(raising on `None`), then the `None` test, then the threshold chain. -/
def calculate_rating_level (row : Row) : Except String (Option String) :=
  match isnan row.rating_ratio with
  | Except.error e => Except.error e
  | Except.ok b =>
    if b || (row.rating_ratio == PyNum.none) then Except.ok Option.none
    else
      match row.rating_ratio with
      | PyNum.num q =>
        Except.ok (some
          (if q ≥ 8/10 then "Good (>=8/10)"
           else if q ≤ 4/10 then "Bad (<=4/10)"
           else "Ok (4~8/10)"))
      | _ => Except.ok Option.none

/-- `calculate_like_level` from the source: `math.isnan` runs first
(raising on `None`), then the `None` test, then the threshold chain;
the third label carries the source spelling. -/
def calculate_like_level (row : Row) : Except String (Option String) :=
  match isnan row.like_ratio with
  | Except.error e => Except.error e
  | Except.ok b =>
    if b || (row.like_ratio == PyNum.none) then Except.ok Option.none
    else
      match row.like_ratio with
      | PyNum.num q =>
        Except.ok (some
          (if q ≥ 8/10 then "Mostly Agree (>80%)"
           else if 5/10 < q ∧ q < 8/10 then "Somewhat Agree (50%~80%)"
           else if 2/10 < q ∧ q ≤ 5/10 then "Somewhat Disgree (20%~50%)"
           else "Mostly Disagree (<20%)"))
      | _ => Except.ok Option.none

/-- `df.apply(f, axis=1)`: computes `f` on each row in order; the
first exception aborts the whole computation. -/
def applySeq (f : Row → Except String α) : List Row → Except String (List α)
  | [] => Except.ok []
  | r :: rest =>
    match f r with
    | Except.error e => Except.error e
    | Except.ok v =>
      match applySeq f rest with
      | Except.error e => Except.error e
      | Except.ok vs => Except.ok (v :: vs)

/-- `update_column` from the source: `df[col] = df.apply(f, axis=1)`.
The whole series on the right is computed before the assignment, so an
exception from any row propagates before the column changes; on
success the dataframe with the new column (row paired with its value)
is returned. -/
def update_column (df : List Row) (apply_function : Row → Except String α) :
    Except String (List (Row × α)) :=
  match applySeq apply_function df with
  | Except.error e => Except.error e
  | Except.ok vs => Except.ok (df.zip vs)

/-- `condition_filter` from the source: `df.loc[mask]` with a boolean
row predicate keeps exactly the rows where the predicate holds. -/
def condition_filter (df : List Row) (condition : Row → Bool) : List Row :=
  df.filter condition

/-- A three-row test dataframe. -/
def dfThree : List Row :=
  [⟨"r1", "w", PyNum.none, PyNum.none⟩,
   ⟨"r2", "w", PyNum.none, PyNum.none⟩,
   ⟨"r3", "w", PyNum.none, PyNum.none⟩]

/-- A one-row test dataframe. -/
def dfOne : List Row := [⟨"r1", "w", PyNum.none, PyNum.none⟩]

/-- A row function that raises on the row whose review is "r2" and
otherwise returns the review length. -/
def rowLenOrBoom (r : Row) : Except String Nat :=
  if r.review == "r2" then Except.error "boom" else Except.ok r.review.length

/-! ## Lemmas about `collapseRuns` -/

theorem head?_collapseRuns (p : Char → Bool) (l : List Char) :
    (collapseRuns p l).head? = l.head? := by
  induction l with
  | nil => rfl
  | cons c rest ih =>
    simp only [collapseRuns]
    split
    · next h =>
      have h2 : (collapseRuns p rest).head? = some c :=
        eq_of_beq ((Bool.and_eq_true _ _).mp h).2
      rw [h2, List.head?_cons]
    · rfl

theorem mem_collapseRuns (p : Char → Bool) (l : List Char) (c : Char)
    (h : c ∈ collapseRuns p l) : c ∈ l := by
  induction l with
  | nil => simp [collapseRuns] at h
  | cons d rest ih =>
    simp only [collapseRuns] at h
    split at h
    · exact List.mem_cons_of_mem d (ih h)
    · rcases List.mem_cons.mp h with h1 | h2
      · exact h1 ▸ List.mem_cons_self _ _
      · exact List.mem_cons_of_mem d (ih h2)

theorem chain'_collapseRuns (R : Char → Char → Prop) (p : Char → Bool)
    (l : List Char) (h : l.Chain' R) : (collapseRuns p l).Chain' R := by
  induction l with
  | nil => simp [collapseRuns]
  | cons c rest ih =>
    rw [List.chain'_cons'] at h
    obtain ⟨h1, h2⟩ := h
    simp only [collapseRuns]
    split
    · exact ih h2
    · rw [List.chain'_cons']
      refine ⟨?_, ih h2⟩
      intro y hy
      apply h1
      rwa [head?_collapseRuns] at hy

theorem collapseRuns_chain' (p : Char → Bool) (l : List Char) :
    (collapseRuns p l).Chain' (fun a b => ¬(p a = true ∧ a = b)) := by
  induction l with
  | nil => simp [collapseRuns]
  | cons c rest ih =>
    simp only [collapseRuns]
    split
    · exact ih
    · next hcond =>
      rw [List.chain'_cons']
      refine ⟨?_, ih⟩
      rintro y hy ⟨hp, hq⟩
      apply hcond
      rw [Bool.and_eq_true]
      refine ⟨hp, ?_⟩
      rw [Option.mem_def] at hy
      subst hq
      rw [hy]
      exact beq_self_eq_true _

theorem collapseRuns_eq_self (p : Char → Bool) (l : List Char)
    (h : l.Chain' (fun a b => ¬(p a = true ∧ a = b))) : collapseRuns p l = l := by
  induction l with
  | nil => rfl
  | cons c rest ih =>
    rw [List.chain'_cons'] at h
    obtain ⟨h1, h2⟩ := h
    have hr : collapseRuns p rest = rest := ih h2
    simp only [collapseRuns, hr]
    split
    · next hcond =>
      exfalso
      rw [Bool.and_eq_true] at hcond
      obtain ⟨hp, hbeq⟩ := hcond
      have hh : rest.head? = some c := eq_of_beq hbeq
      exact h1 c (by rw [Option.mem_def, hh]) ⟨hp, rfl⟩
    · rfl

theorem length_collapseRuns_le (p : Char → Bool) (l : List Char) :
    (collapseRuns p l).length ≤ l.length := by
  induction l with
  | nil => simp [collapseRuns]
  | cons c rest ih =>
    simp only [collapseRuns]
    split
    · exact le_trans ih (Nat.le_succ _)
    · simpa using Nat.succ_le_succ ih

theorem collapseRuns_replicate (p : Char → Bool) (c : Char) (hp : p c = true)
    (n : Nat) : collapseRuns p (List.replicate (n + 1) c) = [c] := by
  induction n with
  | zero => simp [collapseRuns, List.replicate]
  | succ n ih =>
    rw [List.replicate_succ, collapseRuns, ih]
    simp [hp]

/-! ## Lemmas about `subWsSpace` -/

theorem mem_subWsSpace_space (l : List Char) (c : Char) (h : c ∈ subWsSpace l)
    (hws : isSpaceChar c = true) : c = ' ' := by
  induction l with
  | nil => simp [subWsSpace] at h
  | cons d rest ih =>
    simp only [subWsSpace] at h
    split at h
    · split at h
      · exact ih h
      · rcases List.mem_cons.mp h with h1 | h2
        · exact h1
        · exact ih h2
    · next hd =>
      rcases List.mem_cons.mp h with h1 | h2
      · subst h1; exact absurd hws hd
      · exact ih h2

theorem subWsSpace_chain' (l : List Char) :
    (subWsSpace l).Chain'
      (fun a b => ¬(isSpaceChar a = true ∧ isSpaceChar b = true)) := by
  induction l with
  | nil => simp [subWsSpace]
  | cons d rest ih =>
    simp only [subWsSpace]
    split
    · split
      · exact ih
      · next hhead =>
        rw [List.chain'_cons']
        refine ⟨?_, ih⟩
        rintro y hy ⟨-, hy2⟩
        have hmem : y ∈ subWsSpace rest := List.mem_of_mem_head? hy
        have hys : y = ' ' := mem_subWsSpace_space rest y hmem hy2
        apply hhead
        rw [Option.mem_def] at hy
        rw [hy, hys]
        exact beq_self_eq_true _
    · next hd =>
      rw [List.chain'_cons']
      refine ⟨?_, ih⟩
      rintro y hy ⟨hd2, -⟩
      exact hd hd2

theorem subWsSpace_eq_self (l : List Char)
    (hsp : ∀ c ∈ l, isSpaceChar c = true → c = ' ')
    (hch : l.Chain' (fun a b => ¬(isSpaceChar a = true ∧ isSpaceChar b = true))) :
    subWsSpace l = l := by
  induction l with
  | nil => rfl
  | cons d rest ih =>
    rw [List.chain'_cons'] at hch
    obtain ⟨h1, h2⟩ := hch
    have hr : subWsSpace rest = rest :=
      ih (fun c hc => hsp c (List.mem_cons_of_mem d hc)) h2
    simp only [subWsSpace, hr]
    split
    · next hdws =>
      have hd' : d = ' ' := hsp d (List.mem_cons_self d rest) hdws
      split
      · next hh =>
        exfalso
        have hhead : rest.head? = some ' ' := eq_of_beq hh
        exact h1 ' ' (by rw [Option.mem_def, hhead]) ⟨hdws, by decide⟩
      · rw [hd']
    · rfl

theorem subWsSpace_of_no_ws (l : List Char)
    (h : ∀ c ∈ l, isSpaceChar c = false) : subWsSpace l = l := by
  induction l with
  | nil => rfl
  | cons d rest ih =>
    have hd := h d (List.mem_cons_self d rest)
    simp only [subWsSpace, hd]
    rw [ih (fun c hc => h c (List.mem_cons_of_mem d hc))]
    simp

theorem length_subWsSpace_le (l : List Char) :
    (subWsSpace l).length ≤ l.length := by
  induction l with
  | nil => simp [subWsSpace]
  | cons d rest ih =>
    simp only [subWsSpace]
    split
    · split
      · exact le_trans ih (Nat.le_succ _)
      · simpa using Nat.succ_le_succ ih
    · simpa using Nat.succ_le_succ ih

/-! ## Lemmas about the cleaning pipelines -/

theorem map_eq_self_of (f : Char → Char) (l : List Char)
    (h : ∀ c ∈ l, f c = c) : l.map f = l := by
  induction l with
  | nil => rfl
  | cons d rest ih =>
    rw [List.map_cons, h d (List.mem_cons_self d rest),
      ih (fun c hc => h c (List.mem_cons_of_mem d hc))]

theorem cleanCnList_no_ws (l : List Char) :
    ∀ c ∈ cleanCnList l, isSpaceChar c = false := by
  intro c hc
  have h2 := mem_collapseRuns _ _ _ hc
  rw [List.mem_filter] at h2
  simpa using h2.2

theorem cleanCnList_idem (l : List Char) :
    cleanCnList (cleanCnList l) = cleanCnList l := by
  have hn := cleanCnList_no_ws l
  have h1 : (cleanCnList l).filter (fun c => !(c == '\n')) = cleanCnList l := by
    rw [List.filter_eq_self]
    intro a ha
    have hws := hn a ha
    by_cases h : a = '\n'
    · subst h; exact absurd hws (by decide)
    · simp [h]
  have h2 : (cleanCnList l).filter (fun c => !(isSpaceChar c)) = cleanCnList l := by
    rw [List.filter_eq_self]
    intro a ha
    simp [hn a ha]
  show collapseRuns _ (((cleanCnList l).filter _).filter _) = cleanCnList l
  rw [h1, h2]
  exact collapseRuns_eq_self _ _ (collapseRuns_chain' _ _)

theorem cleanEnList_ws_eq_space (l : List Char) :
    ∀ c ∈ cleanEnList l, isSpaceChar c = true → c = ' ' := by
  intro c hc hws
  have h2 := mem_collapseRuns _ _ _ hc
  exact mem_subWsSpace_space _ _ h2 hws

theorem cleanEnList_chain'_ws (l : List Char) :
    (cleanEnList l).Chain'
      (fun a b => ¬(isSpaceChar a = true ∧ isSpaceChar b = true)) :=
  chain'_collapseRuns _ _ _ (subWsSpace_chain' _)

theorem cleanEnList_idem (l : List Char) :
    cleanEnList (cleanEnList l) = cleanEnList l := by
  have hsp := cleanEnList_ws_eq_space l
  have h1 : (cleanEnList l).map (fun c => if c == '\n' then ' ' else c) =
      cleanEnList l := by
    apply map_eq_self_of
    intro c hc
    by_cases h : c = '\n'
    · subst h
      exact absurd (hsp '\n' hc (by decide)) (by decide)
    · simp [h]
  have h2 : subWsSpace (cleanEnList l) = cleanEnList l :=
    subWsSpace_eq_self _ hsp (cleanEnList_chain'_ws l)
  show collapseRuns _ (subWsSpace ((cleanEnList l).map _)) = cleanEnList l
  rw [h1, h2]
  exact collapseRuns_eq_self _ _ (collapseRuns_chain' _ _)

theorem cleanCnList_length_le (l : List Char) :
    (cleanCnList l).length ≤ l.length := by
  refine le_trans (length_collapseRuns_le _ _) ?_
  refine le_trans (List.length_filter_le _ _) ?_
  exact List.length_filter_le _ _

theorem cleanEnList_length_le (l : List Char) :
    (cleanEnList l).length ≤ l.length := by
  refine le_trans (length_collapseRuns_le _ _) ?_
  refine le_trans (length_subWsSpace_le _) ?_
  rw [List.length_map]

theorem cleanEnList_replicate (c : Char) (hp : enPunct.contains c = true)
    (hws : isSpaceChar c = false) (n : Nat) :
    cleanEnList (List.replicate (n + 1) c) = [c] := by
  have hnl : c ≠ '\n' := by
    intro h; subst h; exact absurd hws (by decide)
  show collapseRuns _ (subWsSpace ((List.replicate (n + 1) c).map _)) = [c]
  rw [List.map_replicate]
  have hmap : (if c == '\n' then ' ' else c) = c := by simp [hnl]
  rw [hmap]
  rw [subWsSpace_of_no_ws _ (by intro x hx; rw [List.eq_of_mem_replicate hx]; exact hws)]
  exact collapseRuns_replicate _ c hp n

theorem cleanCnList_replicate (c : Char) (hp : cnPunct.contains c = true)
    (hws : isSpaceChar c = false) (n : Nat) :
    cleanCnList (List.replicate (n + 1) c) = [c] := by
  have hnl : c ≠ '\n' := by
    intro h; subst h; exact absurd hws (by decide)
  show collapseRuns _ (((List.replicate (n + 1) c).filter _).filter _) = [c]
  have hf1 : (List.replicate (n + 1) c).filter (fun x => !(x == '\n')) =
      List.replicate (n + 1) c := by
    rw [List.filter_eq_self]
    intro a ha
    rw [List.eq_of_mem_replicate ha]
    simp [hnl]
  have hf2 : (List.replicate (n + 1) c).filter (fun x => !(isSpaceChar x)) =
      List.replicate (n + 1) c := by
    rw [List.filter_eq_self]
    intro a ha
    rw [List.eq_of_mem_replicate ha]
    simp [hws]
  rw [hf1, hf2]
  exact collapseRuns_replicate _ c hp n

/-! ## Run starts equal run ends -/

theorem countRunStartsFrom_eq (p : Char → Bool) (l : List Char) :
    ∀ prev, (if p prev then 1 else 0) + countRunStartsFrom p prev l =
      countRunEnds p (prev :: l) := by
  induction l with
  | nil => intro prev; simp [countRunStartsFrom, countRunEnds]
  | cons c rest ih =>
    intro prev
    have h := ih c
    simp only [countRunStartsFrom, countRunEnds]
    rw [← h]
    cases hp : p prev <;> cases hc : p c <;> simp [hp, hc]

theorem countRunEnds_eq_countRunStarts (p : Char → Bool) (l : List Char) :
    countRunEnds p l = countRunStarts p l := by
  cases l with
  | nil => rfl
  | cons c rest =>
    simp only [countRunStarts]
    rw [countRunStartsFrom_eq p rest c]

/-! ## Lemmas about `applySeq` and `update_column` -/

theorem applySeq_ok {α : Type} (f : Row → Except String α) (df : List Row)
    (vs : List α) (h : applySeq f df = Except.ok vs) :
    vs.length = df.length ∧ ∀ x ∈ df.zip vs, f x.1 = Except.ok x.2 := by
  induction df generalizing vs with
  | nil =>
    simp only [applySeq, Except.ok.injEq] at h
    subst h
    simp
  | cons r rest ih =>
    simp only [applySeq] at h
    cases hf : f r with
    | error e => rw [hf] at h; exact absurd h (by simp)
    | ok v =>
      rw [hf] at h
      cases hr : applySeq f rest with
      | error e => rw [hr] at h; exact absurd h (by simp)
      | ok ws' =>
        rw [hr] at h
        simp only [Except.ok.injEq] at h
        subst h
        obtain ⟨hlen, hall⟩ := ih ws' hr
        refine ⟨by simp [hlen], ?_⟩
        intro x hx
        rw [List.zip_cons_cons] at hx
        rcases List.mem_cons.mp hx with h1 | h2
        · subst h1; exact hf
        · exact hall x h2

theorem applySeq_error_of_mem {α : Type} (f : Row → Except String α)
    (df : List Row) (r : Row) (hr : r ∈ df) (e : String)
    (he : f r = Except.error e) :
    ∃ e2, applySeq f df = Except.error e2 := by
  induction df with
  | nil => simp at hr
  | cons d rest ih =>
    rcases List.mem_cons.mp hr with h1 | h2
    · subst h1
      exact ⟨e, by simp [applySeq, he]⟩
    · cases hf : f d with
      | error e2 => exact ⟨e2, by simp [applySeq, hf]⟩
      | ok v =>
        obtain ⟨e2, he2⟩ := ih h2
        exact ⟨e2, by simp [applySeq, hf, he2]⟩

theorem update_column_error {α : Type} (f : Row → Except String α)
    (df : List Row) (r : Row) (hr : r ∈ df) (e : String)
    (he : f r = Except.error e) :
    ∃ e2, update_column df f = Except.error e2 := by
  obtain ⟨e2, he2⟩ := applySeq_error_of_mem f df r hr e he
  exact ⟨e2, by simp [update_column, he2]⟩

theorem update_column_ok {α : Type} (f : Row → Except String α)
    (df : List Row) (d : List (Row × α)) (h : update_column df f = Except.ok d) :
    d.length = df.length ∧ ∀ x ∈ d, f x.1 = Except.ok x.2 := by
  simp only [update_column] at h
  cases ha : applySeq f df with
  | error e => rw [ha] at h; exact absurd h (by simp)
  | ok vs =>
    rw [ha] at h
    simp only [Except.ok.injEq] at h
    subst h
    obtain ⟨hlen, hall⟩ := applySeq_ok f df vs ha
    exact ⟨by rw [List.length_zip, hlen, Nat.min_self], hall⟩

/-! ## Lemmas about the level categorisers -/

theorem pyNum_num_beq_none (q : ℚ) : (PyNum.num q == PyNum.none) = false := by
  cases h : PyNum.num q == PyNum.none
  · rfl
  · exact absurd (eq_of_beq h) (fun hh => PyNum.noConfusion hh)

theorem calculate_rating_level_num (row : Row) (q : ℚ)
    (h : row.rating_ratio = PyNum.num q) :
    calculate_rating_level row = Except.ok (some
      (if q ≥ 8/10 then "Good (>=8/10)"
       else if q ≤ 4/10 then "Bad (<=4/10)"
       else "Ok (4~8/10)")) := by
  simp [calculate_rating_level, h, isnan, pyNum_num_beq_none]

theorem calculate_like_level_num (row : Row) (q : ℚ)
    (h : row.like_ratio = PyNum.num q) :
    calculate_like_level row = Except.ok (some
      (if q ≥ 8/10 then "Mostly Agree (>80%)"
       else if 5/10 < q ∧ q < 8/10 then "Somewhat Agree (50%~80%)"
       else if 2/10 < q ∧ q ≤ 5/10 then "Somewhat Disgree (20%~50%)"
       else "Mostly Disagree (<20%)")) := by
  simp [calculate_like_level, h, isnan, pyNum_num_beq_none]

/-! ## Claim theorems -/

/-- C1 counterexample: on a row with `like_ratio = 0.5` the code returns
the label "Somewhat Disgree (20%~50%)" (source spelling), which is not
the string "Somewhat Disagree (20%~50%)" the claim fixes. -/
theorem C1_counterexample :
    calculate_like_level ⟨"", "", PyNum.none, PyNum.num (5/10)⟩ =
      Except.ok (some "Somewhat Disgree (20%~50%)") ∧
    "Somewhat Disgree (20%~50%)" ≠ "Somewhat Disagree (20%~50%)" := by
  refine ⟨?_, by decide⟩
  rw [calculate_like_level_num ⟨"", "", PyNum.none, PyNum.num (5/10)⟩ (5/10) rfl]
  rw [if_neg (by norm_num), if_neg (by norm_num), if_pos (by norm_num)]

/-- C1 (amended): for every row whose `like_ratio` is an ordinary
number, `calculate_like_level` returns exactly the label the code fixes
for its range, the third label being spelled "Somewhat Disgree
(20%~50%)" as in the source: `like_ratio >= 0.8` gives "Mostly Agree
(>80%)", `0.5 < like_ratio < 0.8` gives "Somewhat Agree (50%~80%)",
`0.2 < like_ratio <= 0.5` gives "Somewhat Disgree (20%~50%)", and
`like_ratio <= 0.2` gives "Mostly Disagree (<20%)". -/
theorem C1_like_level_ranges (row : Row) (q : ℚ)
    (h : row.like_ratio = PyNum.num q) :
    (q ≥ 8/10 →
      calculate_like_level row = Except.ok (some "Mostly Agree (>80%)")) ∧
    (5/10 < q → q < 8/10 →
      calculate_like_level row = Except.ok (some "Somewhat Agree (50%~80%)")) ∧
    (2/10 < q → q ≤ 5/10 →
      calculate_like_level row = Except.ok (some "Somewhat Disgree (20%~50%)")) ∧
    (q ≤ 2/10 →
      calculate_like_level row = Except.ok (some "Mostly Disagree (<20%)")) := by
  rw [calculate_like_level_num row q h]
  refine ⟨?_, ?_, ?_, ?_⟩
  · intro h1; rw [if_pos h1]
  · intro h1 h2
    rw [if_neg (by linarith), if_pos ⟨h1, h2⟩]
  · intro h1 h2
    rw [if_neg (by linarith), if_neg (by rintro ⟨ha, -⟩; linarith),
      if_pos ⟨h1, h2⟩]
  · intro h1
    rw [if_neg (by linarith), if_neg (by rintro ⟨ha, -⟩; linarith),
      if_neg (by rintro ⟨ha, -⟩; linarith)]

/-- C1 witness: the four ranges of `C1_like_level_ranges` instantiated
at 0.9, 0.6, 0.5 and 0.1. -/
theorem C1_like_level_ranges_witness :
    calculate_like_level ⟨"", "", PyNum.none, PyNum.num (9/10)⟩ =
      Except.ok (some "Mostly Agree (>80%)") ∧
    calculate_like_level ⟨"", "", PyNum.none, PyNum.num (6/10)⟩ =
      Except.ok (some "Somewhat Agree (50%~80%)") ∧
    calculate_like_level ⟨"", "", PyNum.none, PyNum.num (5/10)⟩ =
      Except.ok (some "Somewhat Disgree (20%~50%)") ∧
    calculate_like_level ⟨"", "", PyNum.none, PyNum.num (1/10)⟩ =
      Except.ok (some "Mostly Disagree (<20%)") :=
  ⟨(C1_like_level_ranges ⟨"", "", PyNum.none, PyNum.num (9/10)⟩ (9/10) rfl).1
      (by norm_num),
   (C1_like_level_ranges ⟨"", "", PyNum.none, PyNum.num (6/10)⟩ (6/10) rfl).2.1
      (by norm_num) (by norm_num),
   (C1_like_level_ranges ⟨"", "", PyNum.none, PyNum.num (5/10)⟩ (5/10)
      rfl).2.2.1 (by norm_num) (by norm_num),
   (C1_like_level_ranges ⟨"", "", PyNum.none, PyNum.num (1/10)⟩ (1/10)
      rfl).2.2.2 (by norm_num)⟩

/-- C2: the claim says `None` ratios give `None` without raising, but
the code evaluates `math.isnan` before its `is None` test, so a `None`
ratio raises a `TypeError` in both categorisers; only the `NaN` case
returns "no level" as documented. -/
theorem C2_none_raises_typeerror :
    calculate_rating_level ⟨"", "", PyNum.none, PyNum.none⟩ =
      Except.error "TypeError: must be real number, not NoneType" ∧
    calculate_like_level ⟨"", "", PyNum.none, PyNum.none⟩ =
      Except.error "TypeError: must be real number, not NoneType" ∧
    calculate_rating_level ⟨"", "", PyNum.nan, PyNum.nan⟩ =
      Except.ok Option.none ∧
    calculate_like_level ⟨"", "", PyNum.nan, PyNum.nan⟩ =
      Except.ok Option.none :=
  ⟨rfl, rfl, rfl, rfl⟩

/-- C3: for every row whose `rating_ratio` is an ordinary number,
`calculate_rating_level` returns "Good (>=8/10)" when the ratio is at
least 0.8, "Bad (<=4/10)" when it is at most 0.4, and "Ok (4~8/10)"
strictly in between; both named thresholds are inclusive and the three
cases cover all numbers with no overlap or gap. -/
theorem C3_rating_level_ranges (row : Row) (q : ℚ)
    (h : row.rating_ratio = PyNum.num q) :
    (q ≥ 8/10 →
      calculate_rating_level row = Except.ok (some "Good (>=8/10)")) ∧
    (q ≤ 4/10 →
      calculate_rating_level row = Except.ok (some "Bad (<=4/10)")) ∧
    (4/10 < q → q < 8/10 →
      calculate_rating_level row = Except.ok (some "Ok (4~8/10)")) ∧
    (q ≥ 8/10 ∨ q ≤ 4/10 ∨ (4/10 < q ∧ q < 8/10)) ∧
    ¬(q ≥ 8/10 ∧ q ≤ 4/10) ∧
    ¬(q ≥ 8/10 ∧ 4/10 < q ∧ q < 8/10) ∧
    ¬(q ≤ 4/10 ∧ 4/10 < q ∧ q < 8/10) := by
  rw [calculate_rating_level_num row q h]
  refine ⟨?_, ?_, ?_, ?_, ?_, ?_, ?_⟩
  · intro h1; rw [if_pos h1]
  · intro h1; rw [if_neg (by linarith), if_pos h1]
  · intro h1 h2; rw [if_neg (by linarith), if_neg (by linarith)]
  · by_cases h1 : q ≥ 8/10
    · exact Or.inl h1
    · by_cases h2 : q ≤ 4/10
      · exact Or.inr (Or.inl h2)
      · exact Or.inr (Or.inr ⟨lt_of_not_ge h2, lt_of_not_ge h1⟩)
  · rintro ⟨h1, h2⟩; linarith
  · rintro ⟨h1, h2, h3⟩; linarith
  · rintro ⟨h1, h2, h3⟩; linarith

/-- C3 witness: the three ranges of `C3_rating_level_ranges`
instantiated at the boundary values 0.8 and 0.4 and the interior value
0.6. -/
theorem C3_rating_level_ranges_witness :
    calculate_rating_level ⟨"", "", PyNum.num (8/10), PyNum.none⟩ =
      Except.ok (some "Good (>=8/10)") ∧
    calculate_rating_level ⟨"", "", PyNum.num (4/10), PyNum.none⟩ =
      Except.ok (some "Bad (<=4/10)") ∧
    calculate_rating_level ⟨"", "", PyNum.num (6/10), PyNum.none⟩ =
      Except.ok (some "Ok (4~8/10)") :=
  ⟨(C3_rating_level_ranges ⟨"", "", PyNum.num (8/10), PyNum.none⟩ (8/10)
      rfl).1 (by norm_num),
   (C3_rating_level_ranges ⟨"", "", PyNum.num (4/10), PyNum.none⟩ (4/10)
      rfl).2.1 (by norm_num),
   (C3_rating_level_ranges ⟨"", "", PyNum.num (6/10), PyNum.none⟩ (6/10)
      rfl).2.2.1 (by norm_num) (by norm_num)⟩

/-- C4: for every input string, the output of `clean_cn_noise` contains
no whitespace characters at all. -/
theorem C4_clean_cn_no_whitespace (s : String) :
    (clean_cn_noise s).data.all (fun c => !(isSpaceChar c)) = true := by
  rw [List.all_eq_true]
  intro c hc
  have h := cleanCnList_no_ws s.data c hc
  simp [h]

/-- C5: punctuation collapsing in `clean_en_noise` and `clean_cn_noise`
only affects maximal runs of one identical punctuation character,
collapsing each to a single occurrence, and leaves alternating
different punctuation untouched: "!!??" maps to "!?", "!?!?" is
unchanged, a run of a single punctuation character collapses to that
character, and any text without two adjacent equal punctuation
characters passes the collapsing stage unchanged. -/
theorem C5_punct_collapse_runs_only :
    clean_en_noise "!!??" = "!?" ∧
    clean_en_noise "!?!?" = "!?!?" ∧
    (∀ c n, enPunct.contains c = true → isSpaceChar c = false →
      clean_en_noise (String.mk (List.replicate (n + 1) c)) = String.mk [c]) ∧
    (∀ c n, cnPunct.contains c = true → isSpaceChar c = false →
      clean_cn_noise (String.mk (List.replicate (n + 1) c)) = String.mk [c]) ∧
    (∀ l, l.Chain' (fun a b => ¬(enPunct.contains a = true ∧ a = b)) →
      collapseRuns (fun a => enPunct.contains a) l = l) ∧
    (∀ l, l.Chain' (fun a b => ¬(cnPunct.contains a = true ∧ a = b)) →
      collapseRuns (fun a => cnPunct.contains a) l = l) := by
  refine ⟨by decide, by decide, ?_, ?_, ?_, ?_⟩
  · intro c n h1 h2
    exact congrArg String.mk (cleanEnList_replicate c h1 h2 n)
  · intro c n h1 h2
    exact congrArg String.mk (cleanCnList_replicate c h1 h2 n)
  · intro l hl
    exact collapseRuns_eq_self _ l hl
  · intro l hl
    exact collapseRuns_eq_self _ l hl

/-- C5 witness: the general parts of `C5_punct_collapse_runs_only`
instantiated at a run of three bangs, a run of three CN full stops,
and the alternating lists "!?" and "。，". -/
theorem C5_punct_collapse_runs_only_witness :
    clean_en_noise (String.mk (List.replicate 3 '!')) = String.mk ['!'] ∧
    clean_cn_noise (String.mk (List.replicate 3 '。')) = String.mk ['。'] ∧
    collapseRuns (fun a => enPunct.contains a) ['!', '?'] = ['!', '?'] ∧
    collapseRuns (fun a => cnPunct.contains a) ['。', '，'] = ['。', '，'] :=
  ⟨C5_punct_collapse_runs_only.2.2.1 '!' 2 (by decide) (by decide),
   C5_punct_collapse_runs_only.2.2.2.1 '。' 2 (by decide) (by decide),
   C5_punct_collapse_runs_only.2.2.2.2.1 ['!', '?']
      (by rw [List.chain'_pair]; decide),
   C5_punct_collapse_runs_only.2.2.2.2.2 ['。', '，']
      (by rw [List.chain'_pair]; decide)⟩

/-- C6: for every word-character class `w` of the regex engine,
`calculate_review_length` returns the character count of the review
when the website is in the caller-supplied CN-site list, and otherwise
the number of maximal `w`-runs (equivalently counted at run starts or
run ends); a CN-site row with review "你好世界" yields 4 regardless of
`w`, and a non-CN row with the ASCII review "hello, world!" — on which
`\w` is exactly alphanumeric-or-underscore — yields 2. -/
theorem C6_review_length (w : Char → Bool) (row : Row)
    (cn_websites : List String) :
    (cn_websites.contains row.website = true →
      calculate_review_length w row cn_websites = row.review.length) ∧
    (cn_websites.contains row.website = false →
      calculate_review_length w row cn_websites =
        countWordTokens w row.review.data) ∧
    (∀ l, countWordTokens w l = countRunStarts w l) ∧
    calculate_review_length w ⟨"你好世界", "douban", PyNum.none, PyNum.none⟩
      ["douban"] = 4 ∧
    calculate_review_length isWordCharAscii
      ⟨"hello, world!", "imdb", PyNum.none, PyNum.none⟩ ["douban"] = 2 := by
  refine ⟨?_, ?_, ?_, ?_, by decide⟩
  · intro h; rw [calculate_review_length, if_pos h]
  · intro h
    rw [calculate_review_length,
      if_neg (by intro hc; rw [h] at hc; exact Bool.false_ne_true hc)]
  · intro l; exact countRunEnds_eq_countRunStarts w l
  · rw [calculate_review_length, if_pos (by decide)]
    decide

/-- C6 witness: the branches of `C6_review_length` instantiated at the
ASCII word-character class with a CN-site row and a non-CN row. -/
theorem C6_review_length_witness :
    calculate_review_length isWordCharAscii
      ⟨"abc", "douban", PyNum.none, PyNum.none⟩ ["douban"] =
      ("abc" : String).length ∧
    calculate_review_length isWordCharAscii
      ⟨"abc", "imdb", PyNum.none, PyNum.none⟩ ["douban"] =
      countWordTokens isWordCharAscii ("abc" : String).data ∧
    countWordTokens isWordCharAscii ("hello, world!" : String).data =
      countRunStarts isWordCharAscii ("hello, world!" : String).data :=
  ⟨(C6_review_length isWordCharAscii
      ⟨"abc", "douban", PyNum.none, PyNum.none⟩ ["douban"]).1 (by decide),
   (C6_review_length isWordCharAscii
      ⟨"abc", "imdb", PyNum.none, PyNum.none⟩ ["douban"]).2.1 (by decide),
   (C6_review_length isWordCharAscii
      ⟨"hello, world!", "imdb", PyNum.none, PyNum.none⟩ ["douban"]).2.2.1
      ("hello, world!" : String).data⟩

/-- C7: both cleaning functions are idempotent: applying
`clean_en_noise` or `clean_cn_noise` twice gives the same string as
applying it once. -/
theorem C7_clean_idempotent (s : String) :
    clean_en_noise (clean_en_noise s) = clean_en_noise s ∧
    clean_cn_noise (clean_cn_noise s) = clean_cn_noise s := by
  constructor
  · exact congrArg String.mk (cleanEnList_idem s.data)
  · exact congrArg String.mk (cleanCnList_idem s.data)

/-- C8: `condition_filter` returns exactly the rows where the predicate
holds, as a sublist of the input (original order, all columns intact);
an always-true predicate returns all rows unchanged and an always-false
predicate returns zero rows. -/
theorem C8_condition_filter (df : List Row) (p : Row → Bool) :
    (condition_filter df p).Sublist df ∧
    (∀ r, r ∈ condition_filter df p ↔ r ∈ df ∧ p r = true) ∧
    condition_filter df (fun _ => true) = df ∧
    condition_filter df (fun _ => false) = [] := by
  refine ⟨List.filter_sublist df, ?_, ?_, ?_⟩
  · intro r
    exact List.mem_filter
  · simp [condition_filter]
  · simp [condition_filter]

/-- C8 witness: `C8_condition_filter` instantiated at a concrete
one-row dataframe with the always-true and always-false predicates. -/
theorem C8_condition_filter_witness :
    condition_filter dfOne (fun _ => true) = dfOne ∧
    condition_filter dfOne (fun _ => false) = [] :=
  ⟨(C8_condition_filter dfOne (fun _ => true)).2.2.1,
   (C8_condition_filter dfOne (fun _ => true)).2.2.2⟩

/-- C9 counterexample: with a three-row dataframe and a row function
that fails on the second row, `update_column` propagates the exception
and produces no dataframe at all, so no earlier row is left updated. -/
theorem C9_counterexample :
    update_column dfThree rowLenOrBoom = Except.error "boom" := rfl

/-- C9 (amended): `update_column` is atomic in effect: when the row
function fails on any row, the exception propagates before the column
assignment, so no updated dataframe is produced (earlier rows are not
left updated); when it succeeds, every row of the result carries its
computed value. -/
theorem C9_update_column_atomic {α : Type} (df : List Row)
    (f : Row → Except String α) :
    (∀ r ∈ df, ∀ e, f r = Except.error e →
      ∀ d, update_column df f ≠ Except.ok d) ∧
    (∀ d, update_column df f = Except.ok d →
      d.length = df.length ∧ ∀ x ∈ d, f x.1 = Except.ok x.2) := by
  constructor
  · intro r hr e he d hd
    obtain ⟨e2, he2⟩ := update_column_error f df r hr e he
    rw [he2] at hd
    exact Except.noConfusion hd
  · intro d hd
    exact update_column_ok f df d hd

/-- C9 witness: `C9_update_column_atomic` instantiated at the concrete
three-row dataframe with the failing row function, and at a one-row
dataframe where the function succeeds. -/
theorem C9_update_column_atomic_witness :
    update_column dfThree rowLenOrBoom ≠ Except.ok [] ∧
    ([(( ⟨"r1", "w", PyNum.none, PyNum.none⟩ : Row), 2)].length =
        dfOne.length ∧
      ∀ x ∈ [(( ⟨"r1", "w", PyNum.none, PyNum.none⟩ : Row), 2)],
        rowLenOrBoom x.1 = Except.ok x.2) :=
  ⟨(C9_update_column_atomic dfThree rowLenOrBoom).1
      ⟨"r2", "w", PyNum.none, PyNum.none⟩ (by decide) "boom" rfl [],
   (C9_update_column_atomic dfOne rowLenOrBoom).2
      [(( ⟨"r1", "w", PyNum.none, PyNum.none⟩ : Row), 2)] rfl⟩

/-- C10: neither cleaning function ever lengthens its input: the
cleaned string is never longer than the original. -/
theorem C10_clean_never_lengthens (s : String) :
    (clean_cn_noise s).length ≤ s.length ∧
    (clean_en_noise s).length ≤ s.length :=
  ⟨cleanCnList_length_le s.data, cleanEnList_length_le s.data⟩
